import Mathlib

/-!
# Verification of the Dawid conversational agent

A shallow embedding of `src/dawid.py`: the expression evaluator
(`MathProcessor`) and the conversation engine (`DawidAI`), with theorems
settling the specification claims.

Modelling conventions:
* Python strings are modelled as `List Char`.
* Python floats are modelled as rationals (`ℚ`); the numeric literals and
  intermediate values exercised by the specification's examples are exactly
  representable, so no binary-float rounding enters.  A non-integral
  exponent of `**` would leave the rational domain and is modelled as an
  evaluation failure; no claim exercises that branch.
* A Python exception escaping a function is modelled as `Option.none`.
-/

namespace Dawid

/-- Tokens are Python strings, modelled as lists of characters. -/
abbrev Tok := List Char

/-- The single-character operator tokens recognised by
`MathProcessor._tokenize` (the string `'+-*/^()'` in the source). -/
def opChars : List Char := ['+', '-', '*', '/', '^', '(', ')']

/-- A character that continues a numeric run in `_tokenize`:
a digit or the decimal point. -/
def isNumChar (c : Char) : Bool := c.isDigit || c == '.'

/-- The scanning loop of `MathProcessor._tokenize` (after the space
removal): a maximal run of digits/dots becomes one numeric token, each
operator character is its own token, any other character is silently
dropped.  The second argument is the numeric run currently being
collected (the loop's `num` buffer), in reverse; it is flushed as one
token when the run ends. -/
def tokenizeAux : List Char → List Char → List Tok
  | [], run => if run = [] then [] else [run.reverse]
  | c :: cs, run =>
    if isNumChar c then tokenizeAux cs (c :: run)
    else
      let rest := if c ∈ opChars then [c] :: tokenizeAux cs [] else tokenizeAux cs []
      if run = [] then rest else run.reverse :: rest

/-- `MathProcessor._tokenize`: the source first removes every space
character (`expression.replace(' ', '')`), then scans. -/
def tokenize (expr : List Char) : List Tok :=
  tokenizeAux (expr.filter (fun c => c ≠ ' ')) []

/-- `MathProcessor._is_number`, restricted to the token alphabet the
tokenizer can produce (runs of digits/dots, or single operator
characters): Python's `float` accepts such a token iff it consists of
digits and at most one dot, with at least one digit. -/
def isNumTok (t : Tok) : Bool :=
  t.all isNumChar && t.any Char.isDigit && t.count '.' ≤ 1

/-- Value of a decimal digit character. -/
def digitVal (c : Char) : ℕ := c.toNat - 48

/-- The natural number denoted by a run of decimal digits. -/
def natOfDigits (l : List Char) : ℕ := l.foldl (fun n c => 10 * n + digitVal c) 0

/-- The fractional value denoted by the digits after the decimal point. -/
def fracOfDigits (l : List Char) : ℚ := l.foldr (fun c q => (digitVal c + q) / 10) 0

/-- `float(token)` on a token accepted by `_is_number`: integer part
before the dot plus fractional part after it. -/
def numVal (t : Tok) : ℚ :=
  natOfDigits (t.takeWhile (fun c => c ≠ '.'))
    + fracOfDigits ((t.dropWhile (fun c => c ≠ '.')).drop 1)

/-- `MathProcessor.precedence` with the `.get(token, 0)` default. -/
def prec (t : Tok) : ℕ :=
  if t = ['+'] ∨ t = ['-'] then 1
  else if t = ['*'] ∨ t = ['/'] then 2
  else if t = ['^'] then 3
  else 0

/-- Python's `x ** y` on the rational fragment: an exponent with
denominator 1 is an integer power (`0 ** negative` raises
`ZeroDivisionError`, modelled as `none`); a non-integral exponent leaves
the rational domain and is modelled as a failure (no claim exercises it). -/
def powQ (x y : ℚ) : Option ℚ :=
  if y.den = 1 then
    if 0 ≤ y.num then some (x ^ y.num.toNat)
    else if x = 0 then none else some (x ^ y.num)
  else none

/-- `MathProcessor._apply_operator`, acting on the values stack once the
operator has been popped by the caller: one of the five binary operations
pops two values and pushes the result (division by zero raises, modelled
as `none`; too few values is a stack underflow, also `none`); an operator
token outside the operations table — such as `(` — pops nothing and
leaves the values unchanged.  The head of the list is the top of the
stack.  The table's unary `sqrt` entry is unreachable: the tokenizer
drops letters, so no token is ever `"sqrt"`. -/
def applyOp (t : Tok) (vs : List ℚ) : Option (List ℚ) :=
  if t = ['+'] ∨ t = ['-'] ∨ t = ['*'] ∨ t = ['/'] ∨ t = ['^'] then
    match vs with
    | b :: a :: rest =>
      if t = ['+'] then some ((a + b) :: rest)
      else if t = ['-'] then some ((a - b) :: rest)
      else if t = ['*'] then some ((a * b) :: rest)
      else if t = ['/'] then (if b = 0 then none else some ((a / b) :: rest))
      else (powQ a b).map (fun r => r :: rest)
    | _ => none
  else some vs

/-- The `)` branch of `_evaluate_tokens`: pop and apply operators until a
`(` is on top, then discard it.  Exhausting the stack without finding `(`
is the `operators.pop()` on an empty list — an `IndexError`, modelled as
`none`. -/
def popUntilParen : List Tok → List ℚ → Option (List Tok × List ℚ)
  | [], _ => none
  | op :: rest, vs =>
    if op = ['('] then some (rest, vs)
    else
      match applyOp op vs with
      | none => none
      | some vs2 => popUntilParen rest vs2

/-- The binary-operator branch of `_evaluate_tokens`: pop and apply while
the stack is non-empty, its top is not `(`, and the top's precedence is
at least the incoming token's. -/
def precPop (p : ℕ) : List Tok → List ℚ → Option (List Tok × List ℚ)
  | [], vs => some ([], vs)
  | op :: rest, vs =>
    if op = ['('] ∨ prec op < p then some (op :: rest, vs)
    else
      match applyOp op vs with
      | none => none
      | some vs2 => precPop p rest vs2

/-- The final loop of `_evaluate_tokens`: pop and apply every remaining
operator. -/
def popAll : List Tok → List ℚ → Option (List ℚ)
  | [], vs => some vs
  | op :: rest, vs =>
    match applyOp op vs with
    | none => none
    | some vs2 => popAll rest vs2

/-- The main loop of `MathProcessor._evaluate_tokens` over the remaining
tokens, carrying the values stack and the operator stack (heads are the
stack tops).  At the end of input every remaining operator is applied and
`values[0]` — the bottom of the values stack, hence the last element of
our list — is returned; `values[0]` on an empty list is an `IndexError`,
modelled as `none`. -/
def evalGo : List Tok → List ℚ → List Tok → Option ℚ
  | [], vs, ops =>
    match popAll ops vs with
    | none => none
    | some vs2 => vs2.getLast?
  | t :: ts, vs, ops =>
    if isNumTok t then evalGo ts (numVal t :: vs) ops
    else if t = ['('] then evalGo ts vs (t :: ops)
    else if t = [')'] then
      match popUntilParen ops vs with
      | none => none
      | some (ops2, vs2) => evalGo ts vs2 ops2
    else
      match precPop (prec t) ops vs with
      | none => none
      | some (ops2, vs2) => evalGo ts vs2 (t :: ops2)

/-- `MathProcessor._evaluate_tokens`. -/
def evalTokens (ts : List Tok) : Option ℚ := evalGo ts [] []

/-- The floor of a rational, written out with integer floor-division so
that it evaluates by kernel reduction. -/
def ratFloor (q : ℚ) : ℤ := Int.fdiv q.num q.den

/-- Round-half-to-even on rationals, the tie-breaking rule of Python's
`round`. -/
def roundHalfEven (x : ℚ) : ℤ :=
  let f := ratFloor x
  if x - f = 1 / 2 then (if f % 2 = 0 then f else f + 1)
  else if x - f < 1 / 2 then f else f + 1

/-- `round(result, 4)`: round to 4 decimal digits. -/
def round4 (q : ℚ) : ℚ := (roundHalfEven (q * 10000) : ℚ) / 10000

/-- `MathProcessor.evaluate`: tokenize, report no result on an empty token
list, evaluate, round to 4 decimal places; any exception inside collapses
to the uniform `None` (here the failure cases are threaded through
`Option`). -/
def evaluate (expr : List Char) : Option ℚ :=
  let ts := tokenize expr
  if ts = [] then none
  else
    match evalTokens ts with
    | none => none
    | some r => some (round4 r)

/-! ## Static analysis of token lists -/

/-- Scan for an unmatched closing parenthesis: the argument counts the
`(` tokens seen so far that are still unmatched, and the scan reports
`true` when some `)` token arrives while that count is zero. -/
def unmatchedCloseGo : ℕ → List Tok → Bool
  | _, [] => false
  | opens, t :: ts =>
    if t = [')'] then (if opens = 0 then true else unmatchedCloseGo (opens - 1) ts)
    else if t = ['('] then unmatchedCloseGo (opens + 1) ts
    else unmatchedCloseGo opens ts

/-- A token list contains a closing parenthesis with no `(` to match. -/
def hasUnmatchedClose (ts : List Tok) : Bool := unmatchedCloseGo 0 ts

/-! ## The conversation engine (`DawidAI`)

Python strings remain `List Char`.  `random.choice` is modelled as an
injected choice function `pick` (total: Python's `random.choice` raises
on an empty list, which no reachable knowledge base produces), and
`datetime.now().isoformat()` as an injected timestamp string `now`. -/

/-- `ConversationState` from the source; `CALCULATING` is declared there
but never transitioned to. -/
inductive ConversationState where
  | NORMAL
  | LEARNING
  | CALCULATING
deriving DecidableEq, Repr

/-- The `Interaction` dataclass. -/
structure Interaction where
  question : List Char
  answer : List Char
  timestamp : List Char
  learned : Bool := false
deriving DecidableEq, Repr

/-- The mutable state of a `DawidAI` instance: the knowledge base (a
Python dict, insertion-ordered with unique keys, modelled as an
association list), the conversation state, the pending question slot
`last_question`, and the interaction history. -/
structure DawidState where
  knowledge_base : List (List Char × List (List Char))
  state : ConversationState
  last_question : Option (List Char)
  history : List Interaction
deriving DecidableEq, Repr

/-- The state of a freshly constructed `DawidAI` before `load_knowledge`. -/
def initialState : DawidState :=
  { knowledge_base := [], state := .NORMAL, last_question := none, history := [] }

/-- Python `str.lower` on one character, for the ASCII range; non-ASCII
characters are left unchanged (the Polish letters appearing in the
source's inputs are already lower-case). -/
def pyLower1 (c : Char) : Char :=
  if 65 ≤ c.toNat ∧ c.toNat ≤ 90 then Char.ofNat (c.toNat + 32) else c

/-- Python `str.lower`. -/
def pyLower (l : List Char) : List Char := l.map pyLower1

/-- Python's whitespace class (`\s` and `str.strip`'s default), for the
ASCII range: space (32), tab (9), newline (10), vertical tab (11), form
feed (12), carriage return (13). -/
def pySpace (c : Char) : Bool :=
  c.toNat = 32 || (9 ≤ c.toNat && c.toNat ≤ 13)

/-- Python `str.strip()`: remove leading and trailing whitespace. -/
def pyStrip (l : List Char) : List Char :=
  (l.dropWhile pySpace).rdropWhile pySpace

/-- Python's regex word class `\w`: ASCII digits (48–57), upper-case
letters (65–90), lower-case letters (97–122) and underscore (95);
non-ASCII characters (≥ 128) are treated as word characters (Python's
Unicode `\w` covers the letters that occur in the source's phrases). -/
def pyWord (c : Char) : Bool :=
  (48 ≤ c.toNat && c.toNat ≤ 57) || (65 ≤ c.toNat && c.toNat ≤ 90) ||
    (97 ≤ c.toNat && c.toNat ≤ 122) || c.toNat = 95 || 128 ≤ c.toNat

/-- A character kept by `re.sub(r'[^\w\s]', '', ·)`: word or whitespace. -/
def keepChar (c : Char) : Bool := pyWord c || pySpace c

/-- The question normalization used by both `_learn` and `_get_response`:
`re.sub(r'[^\w\s]', '', question.lower()).strip()`. -/
def cleanQuestion (l : List Char) : List Char :=
  pyStrip ((pyLower l).filter keepChar)

/-- A character of the regex class `[\d\+\-\*/\(\)\^\s]` in the
calculation trigger pattern. -/
def isExprChar (c : Char) : Bool :=
  c.isDigit || c = '+' || c = '-' || c = '*' || c = '/' ||
    c = '(' || c = ')' || c = '^' || pySpace c

/-- Group 2 of the trigger regex once the run of expression characters
after the cue word is known: `\s*` greedily takes the leading whitespace
and `[...]+` the rest; when the run is all whitespace, backtracking gives
its last character back to the mandatory `[...]+`. -/
def mathGroup2 (run : List Char) : List Char :=
  let g := run.dropWhile pySpace
  if g = [] then run.reverse.take 1 else g

/-- `re.search(r'(policz|oblicz)\s*([\d\+\-\*/\(\)\^\s]+)', s)`, returning
group 2 of the leftmost match: scan for an occurrence of a cue word
followed by a non-empty run of expression characters. -/
def mathMatch : List Char → Option (List Char)
  | [] => none
  | c :: cs =>
    if (c :: cs).take 6 = "policz".toList ∨ (c :: cs).take 6 = "oblicz".toList then
      let run := ((c :: cs).drop 6).takeWhile isExprChar
      if run = [] then mathMatch cs else some (mathGroup2 run)
    else mathMatch cs

/-- `ESFJPersonality.LEARNING_TEMPLATES`. -/
def LEARNING_TEMPLATES : List (List Char) :=
  ["Nie wiem, nauczysz mnie? 🤔".toList,
   "Pierwsze słyszę! Co to?".toList,
   "Opowiesz mi o tym? 😊".toList,
   "A co to takiego?".toList,
   "Nie znam tego jeszcze!".toList,
   "Wyjaśnisz? 🤗".toList]

/-- `ESFJPersonality.GRATITUDE_TEMPLATES`. -/
def GRATITUDE_TEMPLATES : List (List Char) :=
  ["Dzięki! 💖".toList,
   "Super, że mi powiedziałeś!".toList,
   "O, fajnie! 😊".toList,
   "Świetnie! Zapamiętam!".toList,
   "Dzięki za wyjaśnienie! ✨".toList,
   "Ekstra! 🌟".toList]

/-- The fixed acknowledgement for `skip`. -/
def skipReply : List Char := "Okej, nie ma sprawy! 😊".toList

/-- The fixed apology when the evaluator reports no result. -/
def mathFailReply : List Char :=
  "Przepraszam, ale nie mogę wykonać tego działania 😅".toList

/-- Rendering of the numeric result inside the success reply; Python
formats the float with `str`.  No claim inspects the rendered digits,
only which reply is produced. -/
def ratRepr (q : ℚ) : List Char :=
  (toString q.num).toList ++
    (if q.den = 1 then [] else '/' :: (toString q.den).toList)

/-- `f"Wynik działania {expression} = {result} 📊"`. -/
def mathSuccessReply (expr : List Char) (r : ℚ) : List Char :=
  "Wynik działania ".toList ++ expr ++ " = ".toList ++ ratRepr r ++ " 📊".toList

/-- The output of the calculation branch of `process_input` for the
extracted expression: the formatted result on success, the fixed apology
on failure. -/
def mathReply (expr : List Char) : List Char :=
  match evaluate expr with
  | some r => mathSuccessReply expr r
  | none => mathFailReply

/-- `self.knowledge_base[cleaned_question].append(answer)` guarded by
`if answer not in ...`: rewrite the first (in a Python dict: only)
occurrence of the key, appending the answer unless already present
verbatim. -/
def updateEntry :
    List (List Char × List (List Char)) → List Char → List Char →
      List (List Char × List (List Char))
  | [], _, _ => []
  | (k, ans) :: rest, key, a =>
    if k = key then (k, if a ∈ ans then ans else ans ++ [a]) :: rest
    else (k, ans) :: updateEntry rest key a

/-- `DawidAI._learn`: append a learned `Interaction` to the history, then
store the answer under the normalized question — appended to the existing
entry if the key is known (deduplicated verbatim), or as a new singleton
entry.  `save_knowledge` and logging are external side effects with no
engine-state content. -/
def learn (question answer now : List Char) (st : DawidState) : DawidState :=
  let cleaned := cleanQuestion question
  let hist := st.history ++ [⟨question, answer, now, true⟩]
  let kb :=
    if (st.knowledge_base.map Prod.fst).contains cleaned then
      updateEntry st.knowledge_base cleaned answer
    else st.knowledge_base ++ [(cleaned, [answer])]
  { st with knowledge_base := kb, history := hist }

/-- The linear scan of `_get_response`: re-normalize each stored key in
insertion order and return the first entry whose normalized key equals
the normalized input. -/
def findEntry (kb : List (List Char × List (List Char))) (cleaned : List Char) :
    Option (List (List Char)) :=
  match kb with
  | [] => none
  | (k, ans) :: rest =>
    if cleanQuestion k = cleaned then some ans else findEntry rest cleaned

/-- `DawidAI._get_response`: on a hit, answer with `random.choice(answers)`
and append a non-learned `Interaction`; on a miss return nothing. -/
def getResponse (pick : List (List Char) → List Char) (now : List Char)
    (st : DawidState) (question : List Char) :
    Option (List Char × DawidState) :=
  match findEntry st.knowledge_base (cleanQuestion question) with
  | none => none
  | some ans =>
    let resp := pick ans
    some (resp, { st with history := st.history ++ [⟨question, resp, now, false⟩] })

/-- `DawidAI.process_input`: strip the input; in `LEARNING` state treat it
as `skip` or as the answer to the pending question (a missing pending
question would make Python call `None.lower()` — an exception, modelled
as `none`); otherwise try the calculation trigger, then the knowledge
base, and finally switch to `LEARNING` recording the input as pending. -/
def processInput (pick : List (List Char) → List Char) (now : List Char)
    (st : DawidState) (rawInput : List Char) :
    Option (List Char × DawidState) :=
  let input := pyStrip rawInput
  if st.state = ConversationState.LEARNING then
    if pyLower input = "skip".toList then
      some (skipReply, { st with state := .NORMAL })
    else
      match st.last_question with
      | none => none
      | some q =>
        let st2 := learn q input now st
        some (pick GRATITUDE_TEMPLATES, { st2 with state := .NORMAL })
  else
    match mathMatch (pyLower input) with
    | some expr => some (mathReply expr, st)
    | none =>
      match getResponse pick now st input with
      | some out => some out
      | none =>
        some (pick LEARNING_TEMPLATES,
          { st with state := .LEARNING, last_question := some input })

/-- Plain association-list lookup on the knowledge base (first — in a
Python dict: only — occurrence of the exact key), used to state the
storage-policy claims. -/
def lookupKB (kb : List (List Char × List (List Char))) (key : List Char) :
    Option (List (List Char)) :=
  match kb with
  | [] => none
  | (k, ans) :: rest => if k = key then some ans else lookupKB rest key

/-- A concrete deterministic instance of the injected `random.choice`:
always the first element. -/
def pickHead (l : List (List Char)) : List Char := l.headD []

/-! ## The persisted-file loader (`DawidAI.load_knowledge`) -/

/-- JSON values, as produced by `json.load`. -/
inductive Json where
  | null
  | bool (b : Bool)
  | num (q : ℚ)
  | str (s : List Char)
  | arr (items : List Json)
  | obj (fields : List (List Char × Json))

/-- Key lookup in a parsed JSON object; `json.load` keeps the last
occurrence of a duplicated key. -/
def lookupField : List (List Char × Json) → List Char → Option Json
  | [], _ => none
  | (k, v) :: rest, key =>
    match lookupField rest key with
    | some v2 => some v2
    | none => if k = key then some v else none

/-- `data.get(key, default)`: defaulting lookup on a dict; calling `.get`
on a non-dict raises `AttributeError`, modelled as `none`. -/
def jsonGet : Json → List Char → Json → Option Json
  | .obj fields, key, dflt => some ((lookupField fields key).getD dflt)
  | _, _, _ => none

/-- Interpret a JSON value as one stored answer list (a list of strings). -/
def jsonToAnswers : List Json → Option (List (List Char))
  | [] => some []
  | .str s :: rest => (jsonToAnswers rest).map (fun out => s :: out)
  | _ => none

/-- Interpret the fields of the `knowledge_base` object. -/
def jsonToKBFields :
    List (List Char × Json) → Option (List (List Char × List (List Char)))
  | [] => some []
  | (k, .arr items) :: rest =>
    match jsonToAnswers items, jsonToKBFields rest with
    | some ans, some out => some ((k, ans) :: out)
    | _, _ => none
  | _ => none

/-- Interpret a JSON value as a knowledge base.  Python performs no such
validation — it assigns whatever value `data.get` returned — but every
file written by `save_knowledge` has exactly this shape, and no claim
exercises an ill-shaped `knowledge_base` value. -/
def jsonToKB : Json → Option (List (List Char × List (List Char)))
  | .obj fields => jsonToKBFields fields
  | _ => none

/-- A JSON string, or nothing. -/
def jsonStr : Json → Option (List Char)
  | .str s => some s
  | _ => none

/-- A JSON boolean, or nothing. -/
def jsonBool : Json → Option Bool
  | .bool b => some b
  | _ => none

/-- `Interaction(**i)`: `i` must be a dict whose keys are exactly the
dataclass parameters (`learned` optional, defaulting to `False`); any
other key or a non-dict raises `TypeError`.  The field values are modelled
at the dataclass's annotated types. -/
def jsonToInteraction (j : Json) : Option Interaction :=
  match j with
  | .obj fields =>
    if fields.all (fun kv =>
        kv.1 = "question".toList ∨ kv.1 = "answer".toList ∨
        kv.1 = "timestamp".toList ∨ kv.1 = "learned".toList) then
      match lookupField fields "question".toList,
            lookupField fields "answer".toList,
            lookupField fields "timestamp".toList with
      | some qj, some aj, some tj =>
        match jsonStr qj, jsonStr aj, jsonStr tj with
        | some q, some a, some t =>
          match lookupField fields "learned".toList with
          | none => some ⟨q, a, t, false⟩
          | some lj => (jsonBool lj).map (fun b => ⟨q, a, t, b⟩)
        | _, _, _ => none
      | _, _, _ => none
    else none
  | _ => none

/-- The list comprehension `[Interaction(**i) for i in ...]`: every
element must convert; the first failure raises. -/
def jsonToInteractions : List Json → Option (List Interaction)
  | [] => some []
  | j :: rest =>
    match jsonToInteraction j, jsonToInteractions rest with
    | some i, some out => some (i :: out)
    | _, _ => none

/-- The `history` value must be a list of well-formed interaction dicts;
anything else makes the comprehension raise. -/
def jsonToHistory : Json → Option (List Interaction)
  | .arr items => jsonToInteractions items
  | _ => none

/-- `DawidAI.load_knowledge`.  The argument models the data file: `none`
when the file does not exist, `some none` when `json.load` raises on
malformed JSON, `some (some data)` when it parses.  The `except` branch
only logs — whatever assignments already happened are kept: in
particular `self.knowledge_base` is assigned *before* the history is
converted, so a failure in the history comprehension leaves the loaded
knowledge base in place. -/
def loadKnowledge (st : DawidState) (file : Option (Option Json)) : DawidState :=
  match file with
  | none => st
  | some none => st
  | some (some data) =>
    match jsonGet data "knowledge_base".toList (.obj []) with
    | none => st
    | some kbJson =>
      match jsonToKB kbJson with
      | none => st
      | some kb =>
        let st1 := { st with knowledge_base := kb }
        match jsonGet data "history".toList (.arr []) with
        | none => st1
        | some hJson =>
          match jsonToHistory hJson with
          | none => st1
          | some h => { st1 with history := h }

/-- The data file whose history is malformed while its knowledge base is
well-formed. -/
def badHistoryFile : Json :=
  .obj [("knowledge_base".toList, .obj [("kot".toList, .arr [.str "ssak".toList])]),
        ("history".toList, .arr [.num 42])]

/-! ## Helper lemmas for concrete evaluations -/

theorem digitVal_zero : digitVal '0' = 0 := rfl

theorem digitVal_one : digitVal '1' = 1 := rfl

theorem digitVal_two : digitVal '2' = 2 := rfl

theorem digitVal_three : digitVal '3' = 3 := rfl

theorem digitVal_four : digitVal '4' = 4 := rfl

theorem digitVal_five : digitVal '5' = 5 := rfl

theorem digitVal_six : digitVal '6' = 6 := rfl

theorem digitVal_seven : digitVal '7' = 7 := rfl

theorem digitVal_eight : digitVal '8' = 8 := rfl

theorem digitVal_nine : digitVal '9' = 9 := rfl

/-- Rounding to 4 decimal places leaves an integer unchanged. -/
theorem round4_int (n : ℤ) : round4 ((n : ℚ)) = (n : ℚ) := by
  have hx : ((n : ℚ) * 10000) = ((n * 10000 : ℤ) : ℚ) := by push_cast; ring
  unfold round4 roundHalfEven ratFloor
  rw [hx, Rat.num_intCast, Rat.den_intCast]
  simp [Int.fdiv_one, sub_self]

theorem round4_four : round4 4 = 4 := by
  have h := round4_int 4; norm_num at h; exact h

theorem round4_five : round4 5 = 5 := by
  have h := round4_int 5; norm_num at h; exact h

theorem round4_fourteen : round4 14 = 14 := by
  have h := round4_int 14; norm_num at h; exact h

theorem round4_sixtyfour : round4 64 = 64 := by
  have h := round4_int 64; norm_num at h; exact h

/-! ## Failure on an unmatched closing parenthesis -/

theorem popUntilParen_of_no_paren (ops : List Tok) (vs : List ℚ)
    (h : ops.count ['('] = 0) : popUntilParen ops vs = none := by
  induction ops generalizing vs with
  | nil => rfl
  | cons op rest ih =>
    rw [List.count_cons] at h
    have hop : op ≠ ['('] := by
      intro he; simp [he] at h
    have hrest : rest.count ['('] = 0 := by omega
    simp only [popUntilParen, if_neg hop]
    cases happ : applyOp op vs with
    | none => rfl
    | some vs2 => exact ih vs2 hrest

theorem popUntilParen_count (ops ops2 : List Tok) (vs vs2 : List ℚ)
    (h : popUntilParen ops vs = some (ops2, vs2)) :
    ops.count ['('] = ops2.count ['('] + 1 := by
  induction ops generalizing vs with
  | nil => simp [popUntilParen] at h
  | cons op rest ih =>
    by_cases hop : op = ['(']
    · subst hop
      simp only [popUntilParen, if_pos, Option.some.injEq, Prod.mk.injEq] at h
      rw [List.count_cons]
      simp [h.1]
    · simp only [popUntilParen, if_neg hop] at h
      cases happ : applyOp op vs with
      | none => rw [happ] at h; exact absurd h (by simp)
      | some vs3 =>
        rw [happ] at h
        rw [List.count_cons, if_neg (by simp [hop])]
        simpa using ih vs3 h

theorem precPop_count (p : ℕ) (ops ops2 : List Tok) (vs vs2 : List ℚ)
    (h : precPop p ops vs = some (ops2, vs2)) :
    ops.count ['('] = ops2.count ['('] := by
  induction ops generalizing vs with
  | nil =>
    simp only [precPop, Option.some.injEq, Prod.mk.injEq] at h
    rw [← h.1]
  | cons op rest ih =>
    simp only [precPop] at h
    split at h
    · simp only [Option.some.injEq, Prod.mk.injEq] at h
      rw [← h.1]
    · cases happ : applyOp op vs with
      | none => rw [happ] at h; exact absurd h (by simp)
      | some vs3 =>
        rw [happ] at h
        rename_i hcond
        have hop : op ≠ ['('] := fun he => hcond (Or.inl he)
        rw [List.count_cons, if_neg (by simp [hop])]
        simpa using ih vs3 h



theorem evalGo_none_of_unmatched (ts : List Tok) :
    ∀ (opens : ℕ) (vs : List ℚ) (ops : List Tok),
      ops.count ['('] = opens → unmatchedCloseGo opens ts = true →
      evalGo ts vs ops = none := by
  induction ts with
  | nil => intro opens vs ops _ hu; simp [unmatchedCloseGo] at hu
  | cons t ts ih =>
    intro opens vs ops hc hu
    by_cases hnum : isNumTok t
    · have ht1 : t ≠ [')'] := by rintro rfl; simp +decide [isNumTok] at hnum
      have ht2 : t ≠ ['('] := by rintro rfl; simp +decide [isNumTok] at hnum
      rw [unmatchedCloseGo, if_neg ht1, if_neg ht2] at hu
      rw [evalGo, if_pos hnum]
      exact ih opens (numVal t :: vs) ops hc hu
    · by_cases hpar : t = ['(']
      · subst hpar
        rw [unmatchedCloseGo, if_neg (by decide), if_pos rfl] at hu
        rw [evalGo, if_neg hnum, if_pos rfl]
        refine ih (opens + 1) vs (['('] :: ops) ?_ hu
        simp [List.count_cons, hc]
      · by_cases hclose : t = [')']
        · subst hclose
          rw [unmatchedCloseGo, if_pos rfl] at hu
          rw [evalGo, if_neg hnum, if_neg hpar, if_pos rfl]
          by_cases hz : opens = 0
          · rw [popUntilParen_of_no_paren ops vs (by rw [hc, hz])]
          · rw [if_neg hz] at hu
            cases hp : popUntilParen ops vs with
            | none => rfl
            | some p =>
              obtain ⟨ops2, vs2⟩ := p
              have := popUntilParen_count ops ops2 vs vs2 hp
              exact ih (opens - 1) vs2 ops2 (by omega) hu
        · rw [unmatchedCloseGo, if_neg hclose, if_neg hpar] at hu
          rw [evalGo, if_neg hnum, if_neg hpar, if_neg hclose]
          cases hp : precPop (prec t) ops vs with
          | none => rfl
          | some p =>
            obtain ⟨ops2, vs2⟩ := p
            have := precPop_count (prec t) ops ops2 vs vs2 hp
            refine ih opens vs2 (t :: ops2) ?_ hu
            simp [List.count_cons, hpar, ← this, hc]

theorem evaluate_none_of_unmatched (s : List Char)
    (h : hasUnmatchedClose (tokenize s) = true) : evaluate s = none := by
  unfold evaluate
  by_cases he : tokenize s = []
  · rw [if_pos he]
  · rw [if_neg he]
    rw [evalTokens, evalGo_none_of_unmatched (tokenize s) 0 [] [] rfl h]



theorem applyOp_paren (vs : List ℚ) : applyOp ['('] vs = some vs := rfl

theorem popAll_append (ops : List Tok) (op0 : Tok) (vs : List ℚ) :
    popAll (ops ++ [op0]) vs = (popAll ops vs).bind (applyOp op0) := by
  induction ops generalizing vs with
  | nil =>
    simp only [List.nil_append, popAll, Option.some_bind]
    cases h : applyOp op0 vs with
    | none => rfl
    | some vs2 => rfl
  | cons op rest ih =>
    simp only [List.cons_append, popAll]
    cases h : applyOp op vs with
    | none => rfl
    | some vs2 => exact ih vs2

theorem popUntilParen_append (ops ops2 : List Tok) (vs vs2 : List ℚ)
    (h : popUntilParen ops vs = some (ops2, vs2)) :
    popUntilParen (ops ++ [['(']]) vs = some (ops2 ++ [['(']], vs2) := by
  induction ops generalizing vs with
  | nil => simp [popUntilParen] at h
  | cons op rest ih =>
    by_cases hop : op = ['(']
    · subst hop
      simp only [popUntilParen, if_pos, Option.some.injEq, Prod.mk.injEq] at h
      obtain ⟨h1, h2⟩ := h
      subst h1
      subst h2
      simp [List.cons_append, popUntilParen]
    · simp only [popUntilParen, if_neg hop] at h
      simp only [List.cons_append, popUntilParen, if_neg hop]
      cases happ : applyOp op vs with
      | none => rw [happ] at h; exact absurd h (by simp)
      | some vs3 => rw [happ] at h; exact ih vs3 h

theorem precPop_append (p : ℕ) (ops ops2 : List Tok) (vs vs2 : List ℚ)
    (h : precPop p ops vs = some (ops2, vs2)) :
    precPop p (ops ++ [['(']]) vs = some (ops2 ++ [['(']], vs2) := by
  induction ops generalizing vs with
  | nil =>
    simp only [precPop, Option.some.injEq, Prod.mk.injEq] at h
    obtain ⟨h1, h2⟩ := h
    subst h1
    subst h2
    simp [precPop]
  | cons op rest ih =>
    simp only [precPop] at h
    simp only [List.cons_append, precPop]
    split at h
    · rename_i hcond
      simp only [Option.some.injEq, Prod.mk.injEq] at h
      obtain ⟨h1, h2⟩ := h
      subst h1
      subst h2
      rw [if_pos hcond]
      rfl
    · rename_i hcond
      rw [if_neg hcond]
      cases happ : applyOp op vs with
      | none => rw [happ] at h; exact absurd h (by simp)
      | some vs3 => rw [happ] at h; exact ih vs3 h

theorem evalGo_extra_paren (ts : List Tok) :
    ∀ (vs : List ℚ) (ops : List Tok) (v : ℚ),
      evalGo ts vs ops = some v → evalGo ts vs (ops ++ [['(']]) = some v := by
  induction ts with
  | nil =>
    intro vs ops v h
    rw [evalGo] at h ⊢
    rw [popAll_append]
    cases hp : popAll ops vs with
    | none => rw [hp] at h; exact absurd h (by simp)
    | some vs2 =>
      rw [hp] at h
      rw [Option.some_bind, applyOp_paren]
      exact h
  | cons t ts ih =>
    intro vs ops v h
    rw [evalGo] at h ⊢
    by_cases hnum : isNumTok t
    · rw [if_pos hnum] at h ⊢
      exact ih _ _ _ h
    · rw [if_neg hnum] at h ⊢
      by_cases hpar : t = ['(']
      · rw [if_pos hpar] at h ⊢
        exact ih vs (t :: ops) v h
      · rw [if_neg hpar] at h ⊢
        by_cases hclose : t = [')']
        · rw [if_pos hclose] at h ⊢
          cases hp : popUntilParen ops vs with
          | none => rw [hp] at h; exact absurd h (by simp)
          | some p =>
            obtain ⟨ops2, vs2⟩ := p
            rw [hp] at h
            rw [popUntilParen_append ops ops2 vs vs2 hp]
            exact ih _ _ _ h
        · rw [if_neg hclose] at h ⊢
          cases hp : precPop (prec t) ops vs with
          | none => rw [hp] at h; exact absurd h (by simp)
          | some p =>
            obtain ⟨ops2, vs2⟩ := p
            rw [hp] at h
            rw [precPop_append (prec t) ops ops2 vs vs2 hp]
            exact ih vs2 (t :: ops2) v h

theorem evalTokens_extra_parens (k : ℕ) (ts : List Tok) (v : ℚ)
    (h : evalTokens ts = some v) :
    evalTokens (List.replicate k ['('] ++ ts) = some v := by
  induction k with
  | zero => simpa using h
  | succ n ih =>
    rw [List.replicate_succ, List.cons_append]
    rw [evalTokens, evalGo, if_neg (by decide), if_pos rfl]
    exact evalGo_extra_paren _ _ _ _ ih

/-! ## Left-to-right application on equal precedence -/

theorem evalGo_num (t : Tok) (ts : List Tok) (vs : List ℚ) (ops : List Tok)
    (h : isNumTok t = true) :
    evalGo (t :: ts) vs ops = evalGo ts (numVal t :: vs) ops := by
  rw [evalGo, if_pos h]

theorem evalGo_caret (ts : List Tok) (vs : List ℚ) (ops : List Tok) :
    evalGo (['^'] :: ts) vs ops =
      match precPop 3 ops vs with
      | none => none
      | some (ops2, vs2) => evalGo ts vs2 (['^'] :: ops2) := by
  rw [evalGo, if_neg (by decide), if_neg (by decide), if_neg (by decide)]
  rfl

theorem precPop_caret_pow (va vb : ℚ) :
    precPop 3 [['^']] [vb, va] =
      (powQ va vb).map (fun r => (([] : List Tok), [r])) := by
  rw [precPop, if_neg (by decide)]
  rw [show applyOp ['^'] [vb, va] = (powQ va vb).map (fun r => [r]) from rfl]
  cases powQ va vb <;> rfl

theorem popAll_caret_pow (r1 vc : ℚ) :
    popAll [['^']] [vc, r1] = (powQ r1 vc).map (fun r => [r]) := by
  rw [popAll]
  rw [show applyOp ['^'] [vc, r1] = (powQ r1 vc).map (fun r => [r]) from rfl]
  cases powQ r1 vc <;> rfl

theorem evalTokens_pow_chain (a b c : Tok) (ha : isNumTok a = true)
    (hb : isNumTok b = true) (hc : isNumTok c = true) :
    evalTokens [a, ['^'], b, ['^'], c] =
      (powQ (numVal a) (numVal b)).bind (fun r => powQ r (numVal c)) := by
  rw [evalTokens, evalGo_num a [['^'], b, ['^'], c] [] [] ha, evalGo_caret]
  show evalGo [b, ['^'], c] [numVal a] [['^']] = _
  rw [evalGo_num b [['^'], c] [numVal a] [['^']] hb, evalGo_caret,
    precPop_caret_pow (numVal a) (numVal b)]
  cases hp : powQ (numVal a) (numVal b) with
  | none => rfl
  | some r1 =>
    show evalGo [c] [r1] [['^']] = _
    rw [evalGo_num c [] [r1] [['^']] hc, evalGo, popAll_caret_pow]
    show _ = powQ r1 (numVal c)
    cases hq : powQ r1 (numVal c) with
    | none => rfl
    | some r2 => rfl

/-! ## Concrete evaluations used by the claims -/

set_option maxHeartbeats 1000000 in
theorem eval_c1a : evaluate "2 + 2".toList = some 4 := by
  norm_num +decide [evaluate, tokenize, tokenizeAux, isNumChar, opChars, evalTokens, evalGo,
    isNumTok, numVal, natOfDigits, fracOfDigits, prec, applyOp, powQ,
    popUntilParen, precPop, popAll, round4_four, digitVal_two]

set_option maxHeartbeats 1000000 in
theorem eval_c1b : evaluate "2 * (3 + 4)".toList = some 14 := by
  norm_num +decide [evaluate, tokenize, tokenizeAux, isNumChar, opChars, evalTokens, evalGo,
    isNumTok, numVal, natOfDigits, fracOfDigits, prec, applyOp, powQ,
    popUntilParen, precPop, popAll, round4_fourteen, digitVal_two, digitVal_three, digitVal_four]

set_option maxHeartbeats 1000000 in
theorem eval_c1c : evaluate "2 + 3 * 4".toList = some 14 := by
  norm_num +decide [evaluate, tokenize, tokenizeAux, isNumChar, opChars, evalTokens, evalGo,
    isNumTok, numVal, natOfDigits, fracOfDigits, prec, applyOp, powQ,
    popUntilParen, precPop, popAll, round4_fourteen, digitVal_two, digitVal_three, digitVal_four]

set_option maxHeartbeats 1000000 in
theorem eval_div0 : evaluate "10 / 0".toList = none := by
  norm_num +decide [evaluate, tokenize, tokenizeAux, isNumChar, opChars, evalTokens, evalGo,
    isNumTok, numVal, natOfDigits, fracOfDigits, prec, applyOp, powQ,
    popUntilParen, precPop, popAll, digitVal_zero, digitVal_one]

set_option maxHeartbeats 1000000 in
theorem eval_sqrt : evaluate "sqrt(".toList = none := by
  norm_num +decide [evaluate, tokenize, tokenizeAux, isNumChar, opChars, evalTokens, evalGo,
    isNumTok, numVal, natOfDigits, fracOfDigits, prec, applyOp, powQ,
    popUntilParen, precPop, popAll]

set_option maxHeartbeats 1000000 in
theorem eval_pow_concrete : evaluate "2^3^2".toList = some 64 := by
  norm_num +decide [evaluate, tokenize, tokenizeAux, isNumChar, opChars, evalTokens, evalGo,
    isNumTok, numVal, natOfDigits, fracOfDigits, prec, applyOp, powQ,
    popUntilParen, precPop, popAll, digitVal_two, digitVal_three,
    Rat.den_ofNat, Rat.num_ofNat]
  rw [show Int.toNat 3 = 3 from rfl, show Int.toNat 2 = 2 from rfl]
  norm_num [round4_sixtyfour]

set_option maxHeartbeats 1000000 in
theorem eval_open_paren : evaluate "(2+3".toList = some 5 := by
  norm_num +decide [evaluate, tokenize, tokenizeAux, isNumChar, opChars, evalTokens, evalGo,
    isNumTok, numVal, natOfDigits, fracOfDigits, prec, applyOp, powQ,
    popUntilParen, precPop, popAll, round4_five, digitVal_two, digitVal_three]

set_option maxHeartbeats 1000000 in
theorem evalTokens_two_plus_three : evalTokens (tokenize "2+3".toList) = some 5 := by
  norm_num +decide [tokenize, tokenizeAux, isNumChar, opChars, evalTokens, evalGo,
    isNumTok, numVal, natOfDigits, fracOfDigits, prec, applyOp, powQ,
    popUntilParen, precPop, popAll, digitVal_two, digitVal_three]

/-! ## Claim theorems for the expression evaluator -/

/-- C1: the expression evaluator computes correct results with standard
operator precedence and parenthesization: `evaluate("2 + 2")` returns 4,
`evaluate("2 * (3 + 4)")` returns 14, and `evaluate("2 + 3 * 4")` returns
14 — multiplication binds tighter than addition — and not 20. -/
theorem claim_evaluator_precedence :
    evaluate "2 + 2".toList = some 4 ∧
    evaluate "2 * (3 + 4)".toList = some 14 ∧
    evaluate "2 + 3 * 4".toList = some 14 ∧
    evaluate "2 + 3 * 4".toList ≠ some 20 := by
  refine ⟨eval_c1a, eval_c1b, eval_c1c, ?_⟩
  rw [eval_c1c]
  norm_num

/-- C3: the evaluator surfaces arithmetic and structural errors as the
uniform failure value `none` rather than crashing or returning a
non-finite number: `evaluate("10 / 0")` fails, `evaluate("sqrt(")` fails
(its letters are dropped, leaving a lone parenthesis and no value), and
every string whose token stream contains a closing parenthesis with no
opening parenthesis to match — such as `"2+3)"` — fails. -/
theorem claim_failure_uniform :
    evaluate "10 / 0".toList = none ∧
    evaluate "sqrt(".toList = none ∧
    ∀ s : List Char, hasUnmatchedClose (tokenize s) = true → evaluate s = none :=
  ⟨eval_div0, eval_sqrt, evaluate_none_of_unmatched⟩

/-- Witness for C3 at the concrete input `"2+3)"`. -/
theorem claim_failure_uniform_witness :
    hasUnmatchedClose (tokenize "2+3)".toList) = true ∧
    evaluate "2+3)".toList = none :=
  ⟨by decide, claim_failure_uniform.2.2 "2+3)".toList (by decide)⟩

/-- C4: operators of equal precedence are applied left to right, which
makes `^` left-associative: a chain `a ^ b ^ c` of numeric literal tokens
evaluates as `(a ^ b) ^ c`, so `evaluate("2^3^2")` returns 64 — not the
conventionally right-associative 512. -/
theorem claim_pow_left_assoc :
    (∀ a b c : Tok, isNumTok a = true → isNumTok b = true → isNumTok c = true →
      evalTokens [a, ['^'], b, ['^'], c] =
        (powQ (numVal a) (numVal b)).bind (fun r => powQ r (numVal c))) ∧
    evaluate "2^3^2".toList = some 64 ∧
    evaluate "2^3^2".toList ≠ some 512 := by
  refine ⟨evalTokens_pow_chain, eval_pow_concrete, ?_⟩
  rw [eval_pow_concrete]
  norm_num

/-- Witness for C4 at the concrete chain `2 ^ 3 ^ 2`. -/
theorem claim_pow_left_assoc_witness :
    isNumTok ['2'] = true ∧ isNumTok ['3'] = true ∧
    evalTokens [['2'], ['^'], ['3'], ['^'], ['2']] =
      (powQ (numVal ['2']) (numVal ['3'])).bind (fun r => powQ r (numVal ['2'])) :=
  ⟨by decide, by decide,
    claim_pow_left_assoc.1 ['2'] ['3'] ['2'] (by decide) (by decide) (by decide)⟩

/-- C10: an unmatched opening parenthesis is silently tolerated rather
than rejected: prepending any number of extra `(` tokens to a token
stream that evaluates successfully leaves the result unchanged — in
particular `evaluate("(2+3")` returns 5 — in contrast to an unmatched
`)`, which fails. -/
theorem claim_extra_open_parens :
    (∀ (k : ℕ) (ts : List Tok) (v : ℚ), evalTokens ts = some v →
      evalTokens (List.replicate k ['('] ++ ts) = some v) ∧
    evaluate "(2+3".toList = some 5 :=
  ⟨evalTokens_extra_parens, eval_open_paren⟩

/-- Witness for C10: one extra `(` in front of the tokens of `"2+3"`. -/
theorem claim_extra_open_parens_witness :
    evalTokens (tokenize "2+3".toList) = some 5 ∧
    evalTokens (List.replicate 1 ['('] ++ tokenize "2+3".toList) = some 5 :=
  ⟨evalTokens_two_plus_three,
    claim_extra_open_parens.1 1 (tokenize "2+3".toList) 5 evalTokens_two_plus_three⟩

/-! ## Idempotence of question normalization -/

theorem charOfNat_toNat (n : ℕ) (h : n < 55296) : (Char.ofNat n).toNat = n := by
  unfold Char.ofNat
  split
  · rfl
  · rename_i hv
    exact absurd (Or.inl h) hv

theorem pyLower1_idem (c : Char) : pyLower1 (pyLower1 c) = pyLower1 c := by
  by_cases h : 65 ≤ c.toNat ∧ c.toNat ≤ 90
  · have h2 : ¬(65 ≤ (Char.ofNat (c.toNat + 32)).toNat ∧
        (Char.ofNat (c.toNat + 32)).toNat ≤ 90) := by
      rw [charOfNat_toNat (c.toNat + 32) (by omega)]
      omega
    rw [pyLower1, pyLower1, if_pos h, if_neg h2]
  · rw [pyLower1, pyLower1, if_neg h, if_neg h]

theorem mem_pyStrip {c : Char} {l : List Char} (h : c ∈ pyStrip l) : c ∈ l := by
  unfold pyStrip at h
  have h1 := (List.rdropWhile_prefix pySpace (l.dropWhile pySpace)).sublist.mem h
  exact (List.dropWhile_suffix pySpace).sublist.mem h1

theorem pyStrip_head (l : List Char) :
    List.dropWhile pySpace (List.rdropWhile pySpace (List.dropWhile pySpace l)) =
      List.rdropWhile pySpace (List.dropWhile pySpace l) := by
  rw [List.dropWhile_eq_self_iff]
  intro hl
  have hpre := List.rdropWhile_prefix pySpace (List.dropWhile pySpace l)
  have hlen : 0 < (List.dropWhile pySpace l).length :=
    lt_of_lt_of_le hl hpre.length_le
  have hget := List.IsPrefix.getElem hpre hl
  have hhead := List.dropWhile_eq_self_iff.mp
    (List.dropWhile_idempotent pySpace l) hlen
  rw [List.get_eq_getElem] at hhead ⊢
  rw [hget]
  exact hhead

theorem pyStrip_idem (l : List Char) : pyStrip (pyStrip l) = pyStrip l := by
  unfold pyStrip
  rw [pyStrip_head l]
  exact List.rdropWhile_idempotent pySpace _

theorem mem_cleanQuestion {c : Char} {s : List Char} (h : c ∈ cleanQuestion s) :
    keepChar c = true ∧ pyLower1 c = c := by
  unfold cleanQuestion at h
  have h1 := mem_pyStrip h
  rw [List.mem_filter] at h1
  obtain ⟨h2, h3⟩ := h1
  refine ⟨h3, ?_⟩
  unfold pyLower at h2
  rw [List.mem_map] at h2
  obtain ⟨d, _, rfl⟩ := h2
  exact pyLower1_idem d

/-- C6: question normalization — lower-casing, removing all non-word
non-whitespace characters, stripping surrounding whitespace — is
idempotent: normalizing a normalized string yields the same string. -/
theorem claim_clean_idempotent (s : List Char) :
    cleanQuestion (cleanQuestion s) = cleanQuestion s := by
  have hmem : ∀ x ∈ cleanQuestion s, pyLower1 x = x :=
    fun x hx => (mem_cleanQuestion hx).2
  have hmap : List.map pyLower1 (cleanQuestion s) = cleanQuestion s := by
    rw [List.map_congr_left hmem]
    simp only [List.map_id_fun', id_eq]
  have hfil : List.filter keepChar (cleanQuestion s) = cleanQuestion s := by
    rw [List.filter_eq_self]
    intro a ha
    exact (mem_cleanQuestion ha).1
  have hstrip : pyStrip (cleanQuestion s) = cleanQuestion s := by
    show pyStrip (pyStrip ((pyLower s).filter keepChar)) = _
    rw [pyStrip_idem]
    rfl
  show pyStrip ((pyLower (cleanQuestion s)).filter keepChar) = cleanQuestion s
  show pyStrip ((List.map pyLower1 (cleanQuestion s)).filter keepChar) = cleanQuestion s
  rw [hmap, hfil, hstrip]

/-! ## The answer-storage policy of the knowledge base -/

theorem lookupKB_none_of_not_mem (kb : List (List Char × List (List Char)))
    (key : List Char) (h : (kb.map Prod.fst).contains key = false) :
    lookupKB kb key = none := by
  induction kb with
  | nil => rfl
  | cons e rest ih =>
    obtain ⟨k, ans⟩ := e
    simp only [List.map_cons, List.contains_cons, Bool.or_eq_false_iff] at h
    have hne : ¬k = key := by
      intro he
      subst he
      simp at h
    rw [lookupKB, if_neg hne]
    exact ih h.2

theorem lookupKB_append_new (kb : List (List Char × List (List Char)))
    (key : List Char) (l : List (List Char)) (h : lookupKB kb key = none) :
    lookupKB (kb ++ [(key, l)]) key = some l := by
  induction kb with
  | nil => simp [lookupKB]
  | cons e rest ih =>
    obtain ⟨k, ans⟩ := e
    rw [lookupKB] at h
    by_cases hk : k = key
    · rw [if_pos hk] at h
      exact absurd h (by simp)
    · rw [if_neg hk] at h
      rw [List.cons_append, lookupKB, if_neg hk]
      exact ih h

theorem lookupKB_some_contains (kb : List (List Char × List (List Char)))
    (key : List Char) (ans : List (List Char)) (h : lookupKB kb key = some ans) :
    (kb.map Prod.fst).contains key = true := by
  induction kb with
  | nil => simp [lookupKB] at h
  | cons e rest ih =>
    obtain ⟨k, a⟩ := e
    rw [lookupKB] at h
    simp only [List.map_cons, List.contains_cons, Bool.or_eq_true]
    by_cases hk : k = key
    · left; simp [hk]
    · rw [if_neg hk] at h
      right; exact ih h

theorem lookupKB_updateEntry (kb : List (List Char × List (List Char)))
    (key a : List Char) :
    lookupKB (updateEntry kb key a) key =
      (lookupKB kb key).map (fun ans => if a ∈ ans then ans else ans ++ [a]) := by
  induction kb with
  | nil => rfl
  | cons e rest ih =>
    obtain ⟨k, ans⟩ := e
    by_cases hk : k = key
    · rw [updateEntry, if_pos hk, lookupKB, if_pos hk, lookupKB, if_pos hk]
      rfl
    · rw [updateEntry, if_neg hk, lookupKB, if_neg hk, lookupKB, if_neg hk]
      exact ih

theorem updateEntry_of_mem (kb : List (List Char × List (List Char)))
    (key a : List Char) (ans : List (List Char))
    (h : lookupKB kb key = some ans) (hmem : a ∈ ans) :
    updateEntry kb key a = kb := by
  induction kb with
  | nil => rfl
  | cons e rest ih =>
    obtain ⟨k, ans2⟩ := e
    rw [lookupKB] at h
    by_cases hk : k = key
    · rw [if_pos hk] at h
      simp only [Option.some.injEq] at h
      subst h
      rw [updateEntry, if_pos hk, if_pos hmem]
    · rw [if_neg hk] at h
      rw [updateEntry, if_neg hk, ih h]

theorem updateEntry_mem_cases (kb : List (List Char × List (List Char)))
    (key a : List Char) (k2 : List Char) (ans2 : List (List Char))
    (h : (k2, ans2) ∈ updateEntry kb key a) :
    (k2, ans2) ∈ kb ∨
      ∃ ans, (k2, ans) ∈ kb ∧ ans2 = (if a ∈ ans then ans else ans ++ [a]) := by
  induction kb with
  | nil => simp [updateEntry] at h
  | cons e rest ih =>
    obtain ⟨k, ans⟩ := e
    by_cases hk : k = key
    · rw [updateEntry, if_pos hk] at h
      rcases List.mem_cons.mp h with h1 | h1
      · have he1 : k2 = k := congrArg Prod.fst h1
        have he2 : ans2 = (if a ∈ ans then ans else ans ++ [a]) := congrArg Prod.snd h1
        right
        refine ⟨ans, ?_, he2⟩
        rw [he1]
        exact List.mem_cons_self _ _
      · left; exact List.mem_cons_of_mem _ h1
    · rw [updateEntry, if_neg hk] at h
      rcases List.mem_cons.mp h with h1 | h1
      · left; rw [h1]; exact List.mem_cons_self _ _
      · rcases ih h1 with h2 | ⟨ans3, h3, h4⟩
        · left; exact List.mem_cons_of_mem _ h2
        · right; exact ⟨ans3, List.mem_cons_of_mem _ h3, h4⟩



theorem lookupKB_none_not_contains (kb : List (List Char × List (List Char)))
    (key : List Char) (h : lookupKB kb key = none) :
    (kb.map Prod.fst).contains key = false := by
  induction kb with
  | nil => rfl
  | cons e rest ih =>
    obtain ⟨k, ans⟩ := e
    rw [lookupKB] at h
    by_cases hk : k = key
    · rw [if_pos hk] at h
      exact absurd h (by simp)
    · rw [if_neg hk] at h
      simp only [List.map_cons, List.contains_cons, Bool.or_eq_false_iff]
      exact ⟨by simpa using fun he => hk he.symm, ih h⟩

theorem learn_lookup (st : DawidState) (q a now : List Char) :
    lookupKB (learn q a now st).knowledge_base (cleanQuestion q) =
      some (match lookupKB st.knowledge_base (cleanQuestion q) with
            | none => [a]
            | some ans => if a ∈ ans then ans else ans ++ [a]) := by
  simp only [learn]
  by_cases hc : (st.knowledge_base.map Prod.fst).contains (cleanQuestion q)
  · rw [if_pos hc, lookupKB_updateEntry]
    cases hl : lookupKB st.knowledge_base (cleanQuestion q) with
    | none =>
      have := lookupKB_none_not_contains _ _ hl
      rw [this] at hc
      exact absurd hc (by simp)
    | some ans => rfl
  · rw [if_neg hc]
    have hl : lookupKB st.knowledge_base (cleanQuestion q) = none :=
      lookupKB_none_of_not_mem _ _ (by simpa using hc)
    rw [lookupKB_append_new _ _ _ hl, hl]

theorem learn_idem_kb (st : DawidState) (q a now1 now2 : List Char) :
    (learn q a now2 (learn q a now1 st)).knowledge_base =
      (learn q a now1 st).knowledge_base := by
  have h1 := learn_lookup st q a now1
  have hmem : ∃ ans1,
      lookupKB (learn q a now1 st).knowledge_base (cleanQuestion q) = some ans1 ∧
        a ∈ ans1 := by
    rw [h1]
    refine ⟨_, rfl, ?_⟩
    cases lookupKB st.knowledge_base (cleanQuestion q) with
    | none => simp
    | some ans =>
      by_cases hm : a ∈ ans
      · simp [hm]
      · simp [hm]
  obtain ⟨ans1, hl1, hm1⟩ := hmem
  conv_lhs => rw [learn]
  simp only
  rw [if_pos (lookupKB_some_contains _ _ _ hl1)]
  exact updateEntry_of_mem _ _ _ _ hl1 hm1

theorem learn_nodup (st : DawidState) (q a now : List Char)
    (h : ∀ k ans, (k, ans) ∈ st.knowledge_base → ans.Nodup) :
    ∀ k ans, (k, ans) ∈ (learn q a now st).knowledge_base → ans.Nodup := by
  intro k ans hmem
  simp only [learn] at hmem
  by_cases hc : (st.knowledge_base.map Prod.fst).contains (cleanQuestion q)
  · rw [if_pos hc] at hmem
    rcases updateEntry_mem_cases _ _ _ _ _ hmem with h1 | ⟨ans0, h0, rfl⟩
    · exact h _ _ h1
    · by_cases hm : a ∈ ans0
      · rw [if_pos hm]
        exact h _ _ h0
      · rw [if_neg hm, List.nodup_append]
        exact ⟨h _ _ h0, List.nodup_singleton a, by simpa using hm⟩
  · rw [if_neg hc] at hmem
    rcases List.mem_append.mp hmem with h1 | h1
    · exact h _ _ h1
    · simp only [List.mem_singleton, Prod.mk.injEq] at h1
      rw [h1.2]
      exact List.nodup_singleton a

/-- C5: for every stored question key, the answer list has no verbatim
duplicates and preserves insertion order, and every teach operation keeps
this: duplicate-freeness is preserved by `_learn`; teaching the same
(question, answer) pair twice leaves the knowledge base unchanged after
the first teach; and the stored entry for the normalized question is the
old list unchanged when the answer is already present, the old list with
the answer appended at the end when it is new, and a fresh singleton for
an unknown question. -/
theorem claim_answers_nodup :
    (∀ (st : DawidState) (q a now : List Char),
      (∀ k ans, (k, ans) ∈ st.knowledge_base → ans.Nodup) →
      ∀ k ans, (k, ans) ∈ (learn q a now st).knowledge_base → ans.Nodup) ∧
    (∀ (st : DawidState) (q a now1 now2 : List Char),
      (learn q a now2 (learn q a now1 st)).knowledge_base =
        (learn q a now1 st).knowledge_base) ∧
    (∀ (st : DawidState) (q a now : List Char),
      lookupKB (learn q a now st).knowledge_base (cleanQuestion q) =
        some (match lookupKB st.knowledge_base (cleanQuestion q) with
              | none => [a]
              | some ans => if a ∈ ans then ans else ans ++ [a])) :=
  ⟨learn_nodup, learn_idem_kb, learn_lookup⟩

theorem claim_answers_nodup_witness :
    (∀ k ans, (k, ans) ∈ initialState.knowledge_base → ans.Nodup) ∧
    (∀ k ans,
      (k, ans) ∈ (learn "kot".toList "ssak".toList [] initialState).knowledge_base →
        ans.Nodup) ∧
    (learn "kot".toList "ssak".toList []
        (learn "kot".toList "ssak".toList [] initialState)).knowledge_base =
      (learn "kot".toList "ssak".toList [] initialState).knowledge_base := by
  have hbase : ∀ k ans, (k, ans) ∈ initialState.knowledge_base → ans.Nodup := by
    intro k ans h
    simp [initialState] at h
  exact ⟨hbase,
    claim_answers_nodup.1 initialState "kot".toList "ssak".toList [] hbase,
    claim_answers_nodup.2.1 initialState "kot".toList "ssak".toList [] []⟩

/-! ## Claim theorems for the conversation engine -/

/-- C2: the teaching round-trip.  Starting in Normal state with an empty
knowledge base, `process("co to jest kot")` misses and transitions to
Learning; `process("zwierzę domowe")` stores that answer and returns to
Normal; and a subsequent `process("co to jest kot?")` — differing only in
punctuation — returns `"zwierzę domowe"`, because both lookup and storage
normalize questions by removing non-word, non-whitespace characters and
case-folding.  `pick` is any choice function that returns a member of a
non-empty list, as `random.choice` does. -/
theorem claim_teaching_round_trip :
    ∀ (pick : List (List Char) → List Char) (now1 now2 now3 : List Char),
      (∀ l, l ≠ [] → pick l ∈ l) →
      ∃ st3 : DawidState,
        processInput pick now1 initialState "co to jest kot".toList =
          some (pick LEARNING_TEMPLATES,
            ⟨[], .LEARNING, some "co to jest kot".toList, []⟩) ∧
        processInput pick now2 ⟨[], .LEARNING, some "co to jest kot".toList, []⟩
            "zwierzę domowe".toList =
          some (pick GRATITUDE_TEMPLATES,
            ⟨[("co to jest kot".toList, ["zwierzę domowe".toList])], .NORMAL,
              some "co to jest kot".toList,
              [⟨"co to jest kot".toList, "zwierzę domowe".toList, now2, true⟩]⟩) ∧
        processInput pick now3
            ⟨[("co to jest kot".toList, ["zwierzę domowe".toList])], .NORMAL,
              some "co to jest kot".toList,
              [⟨"co to jest kot".toList, "zwierzę domowe".toList, now2, true⟩]⟩
            "co to jest kot?".toList =
          some ("zwierzę domowe".toList, st3) := by
  intro pick now1 now2 now3 hpick
  have h3 : pick ["zwierzę domowe".toList] = "zwierzę domowe".toList := by
    have h := hpick ["zwierzę domowe".toList] (by simp)
    simpa using h
  have hstep : processInput pick now3
      ⟨[("co to jest kot".toList, ["zwierzę domowe".toList])], .NORMAL,
        some "co to jest kot".toList,
        [⟨"co to jest kot".toList, "zwierzę domowe".toList, now2, true⟩]⟩
      "co to jest kot?".toList =
    some (pick ["zwierzę domowe".toList],
      ⟨[("co to jest kot".toList, ["zwierzę domowe".toList])], .NORMAL,
        some "co to jest kot".toList,
        [⟨"co to jest kot".toList, "zwierzę domowe".toList, now2, true⟩,
         ⟨"co to jest kot?".toList, pick ["zwierzę domowe".toList], now3, false⟩]⟩) := rfl
  refine ⟨⟨[("co to jest kot".toList, ["zwierzę domowe".toList])], .NORMAL,
      some "co to jest kot".toList,
      [⟨"co to jest kot".toList, "zwierzę domowe".toList, now2, true⟩,
       ⟨"co to jest kot?".toList, "zwierzę domowe".toList, now3, false⟩]⟩,
    rfl, rfl, ?_⟩
  rw [hstep, h3]



/-- Witness for C2 with the deterministic head-choice `pickHead`. -/
theorem claim_teaching_round_trip_witness :
    (∀ l : List (List Char), l ≠ [] → pickHead l ∈ l) ∧
    (∃ st3 : DawidState,
      processInput pickHead [] initialState "co to jest kot".toList =
        some (pickHead LEARNING_TEMPLATES,
          ⟨[], .LEARNING, some "co to jest kot".toList, []⟩) ∧
      processInput pickHead [] ⟨[], .LEARNING, some "co to jest kot".toList, []⟩
          "zwierzę domowe".toList =
        some (pickHead GRATITUDE_TEMPLATES,
          ⟨[("co to jest kot".toList, ["zwierzę domowe".toList])], .NORMAL,
            some "co to jest kot".toList,
            [⟨"co to jest kot".toList, "zwierzę domowe".toList, [], true⟩]⟩) ∧
      processInput pickHead []
          ⟨[("co to jest kot".toList, ["zwierzę domowe".toList])], .NORMAL,
            some "co to jest kot".toList,
            [⟨"co to jest kot".toList, "zwierzę domowe".toList, [], true⟩]⟩
          "co to jest kot?".toList =
        some ("zwierzę domowe".toList, st3)) := by
  have hp : ∀ l : List (List Char), l ≠ [] → pickHead l ∈ l := by
    intro l hl
    cases l with
    | nil => exact absurd rfl hl
    | cons x xs => simp [pickHead]
  exact ⟨hp, claim_teaching_round_trip pickHead [] [] [] hp⟩

/-- C7 (amended): whenever the engine leaves the Learning state — after
`skip` and after any other teach answer — it is in Normal state; the
pending-question slot, however, is not cleared but retains its previous
value (the source never assigns `None` to `last_question`; the stale
value is only overwritten on the next knowledge miss and is never read
while in Normal state). -/
theorem claim_learning_exit (pick : List (List Char) → List Char)
    (now : List Char) (st : DawidState) (input r : List Char) (st2 : DawidState)
    (hL : st.state = ConversationState.LEARNING)
    (h : processInput pick now st input = some (r, st2)) :
    st2.state = ConversationState.NORMAL ∧
      st2.last_question = st.last_question := by
  simp only [processInput, hL, if_pos] at h
  by_cases hskip : pyLower (pyStrip input) = "skip".toList
  · rw [if_pos hskip] at h
    simp only [Option.some.injEq, Prod.mk.injEq] at h
    rw [← h.2]
    exact ⟨rfl, rfl⟩
  · rw [if_neg hskip] at h
    cases hq : st.last_question with
    | none =>
      rw [hq] at h
      exact absurd h (by simp)
    | some q =>
      rw [hq] at h
      simp only [Option.some.injEq, Prod.mk.injEq] at h
      rw [← h.2]
      exact ⟨rfl, by simp [learn, hq]⟩

/-- Witness for C7 (amended) at the `skip` input. -/
theorem claim_learning_exit_witness :
    (⟨[], .LEARNING, some "kot".toList, []⟩ : DawidState).state =
        ConversationState.LEARNING ∧
    processInput pickHead [] ⟨[], .LEARNING, some "kot".toList, []⟩
        "skip".toList =
      some (skipReply, ⟨[], .NORMAL, some "kot".toList, []⟩) ∧
    (⟨[], .NORMAL, some "kot".toList, []⟩ : DawidState).state =
        ConversationState.NORMAL ∧
    (⟨[], .NORMAL, some "kot".toList, []⟩ : DawidState).last_question =
      (⟨[], .LEARNING, some "kot".toList, []⟩ : DawidState).last_question :=
  ⟨rfl, rfl,
    claim_learning_exit pickHead [] ⟨[], .LEARNING, some "kot".toList, []⟩
      "skip".toList skipReply ⟨[], .NORMAL, some "kot".toList, []⟩ rfl rfl⟩

/-- C7 counterexample to the claim as stated: after `skip` from the
Learning state the engine is back in Normal but still holds the pending
question `"co to jest kot"` — the slot is not cleared. -/
theorem claim_pending_cleared_counterexample :
    processInput pickHead [] ⟨[], .LEARNING, some "co to jest kot".toList, []⟩
        "skip".toList =
      some (skipReply, ⟨[], .NORMAL, some "co to jest kot".toList, []⟩) ∧
    (some "co to jest kot".toList : Option (List Char)) ≠ none :=
  ⟨rfl, by simp⟩



/-- C8 (amended): an input matching the calculation trigger pattern is
routed to the expression evaluator when the engine is in the Normal
state, with the conversation state, knowledge base and history left
unchanged.  (In the Learning state such input is instead consumed as the
teach answer — see the counterexample.) -/
theorem claim_math_trigger_normal (pick : List (List Char) → List Char)
    (now : List Char) (st : DawidState) (input expr : List Char)
    (hN : st.state = ConversationState.NORMAL)
    (hm : mathMatch (pyLower (pyStrip input)) = some expr) :
    processInput pick now st input = some (mathReply expr, st) := by
  have hne : ¬st.state = ConversationState.LEARNING := by
    rw [hN]
    intro h
    exact absurd h (by simp)
  simp only [processInput, if_neg hne, hm]

/-- Witness for C8 (amended) at `"policz 2+2"` in the Normal state. -/
theorem claim_math_trigger_normal_witness :
    initialState.state = ConversationState.NORMAL ∧
    mathMatch (pyLower (pyStrip "policz 2+2".toList)) = some "2+2".toList ∧
    processInput pickHead [] initialState "policz 2+2".toList =
      some (mathReply "2+2".toList, initialState) :=
  ⟨rfl, rfl,
    claim_math_trigger_normal pickHead [] initialState "policz 2+2".toList
      "2+2".toList rfl rfl⟩

/-- C8 counterexample to the claim as stated: in the Learning state the
input `"policz 2+2"` matches the calculation trigger pattern, yet it is
not routed to the evaluator — it is stored verbatim as the answer to the
pending question and answered with a gratitude phrase. -/
theorem claim_math_trigger_learning_counterexample :
    mathMatch (pyLower (pyStrip "policz 2+2".toList)) = some "2+2".toList ∧
    processInput pickHead [] ⟨[], .LEARNING, some "co to jest kot".toList, []⟩
        "policz 2+2".toList =
      some ("Dzięki! 💖".toList,
        ⟨[("co to jest kot".toList, ["policz 2+2".toList])], .NORMAL,
          some "co to jest kot".toList,
          [⟨"co to jest kot".toList, "policz 2+2".toList, [], true⟩]⟩) ∧
    processInput pickHead [] ⟨[], .LEARNING, some "co to jest kot".toList, []⟩
        "policz 2+2".toList ≠
      some (mathReply "2+2".toList,
        ⟨[], .LEARNING, some "co to jest kot".toList, []⟩) := by
  refine ⟨rfl, rfl, ?_⟩
  intro h
  have h2 := congrArg (Option.map (fun p : List Char × DawidState => p.2.state)) h
  have h3 : (some ConversationState.NORMAL : Option ConversationState) =
      some ConversationState.LEARNING := h2
  exact absurd h3 (by simp)

/-- C9: loading with no file or with malformed JSON does leave the
engine in the empty initial state, but a well-formed `knowledge_base`
followed by a malformed `history` does not: the knowledge base keeps the
loaded entries because Python assigns it before the history conversion
raises.  The state after this failed load therefore differs from the
state after loading nothing, contradicting the claim (and the source's
own "Zaczynam od nowa!" message). -/
theorem claim_load_failure_partial :
    loadKnowledge initialState (some (some badHistoryFile)) =
      ⟨[("kot".toList, ["ssak".toList])], .NORMAL, none, []⟩ ∧
    loadKnowledge initialState none = initialState ∧
    loadKnowledge initialState (some none) = initialState ∧
    loadKnowledge initialState (some (some badHistoryFile)) ≠
      loadKnowledge initialState none := by
  refine ⟨rfl, rfl, rfl, ?_⟩
  intro h
  have h2 := congrArg DawidState.knowledge_base h
  exact absurd h2 (by decide)

end Dawid
